import Mathlib

/-!
Verification development for the `reason` Go package: a minimal REST resource
framework.  The Go sources (`server.go`, `resource.go`, and the form-decoding
file containing `getSchemaFields` / `parseForm`) are shallowly embedded below:

* Go struct types are embedded as ordered lists of fields, each carrying a
  declared name, a `json` tag string and a `reflect.Kind`-style kind.
* Go error values are embedded as an inductive type in which the package-level
  sentinel `ErrNotFound` is its own constructor, so that Go's pointer-identity
  comparison `err == ErrNotFound` is modelled by constructor equality and two
  distinct `errors.New` values with the same message stay distinguishable from
  the sentinel.
* `strconv.ParseInt`, `strconv.ParseUint` and `strconv.ParseFloat` (as called
  with base 10 / bitSize 64) are modelled over character lists, including
  syntax errors, range errors, sign handling, `inf`/`nan` specials, hexadecimal
  floats and underscore validation.  Floating-point values are carried
  symbolically (sign, mantissa, exponent) because the framework never inspects
  them; rounding of a decimal to the nearest binary float is not modelled, only
  the overflow/underflow error conditions that `strconv` reports.  The exact
  rounding boundary inside the one-decimal-digit window around the largest
  float is approximated by the exact mathematical overflow threshold.
* The `httprouter` dependency is external to the repository; routes are
  modelled as a list of (method, pattern, action) entries with first-match
  lookup and a catch-all 404, per the spec's description of the router
  contract.  Trailing-slash and case redirections of the real router are not
  modelled; requests carry their path already split into segments.
* Handler invocations are recorded in an explicit call trace so that
  "the handler method is never invoked" is an expressible property.
-/

set_option autoImplicit false

/-- HTTP methods used by the framework. -/
inductive Method
  | GET
  | POST
  | PUT
  | DELETE
  deriving DecidableEq, Repr

/-- Go error values as observed by this package.  `errNotFound` is the
package sentinel `ErrNotFound`; `errNew` is any other error created with
`errors.New`/`fmt.Errorf`; `parseError` is a `strconv.NumError` with its
function name, input string and failure message. -/
inductive GoError
  | errNotFound
  | errNew (msg : String)
  | parseError (fn : String) (num : String) (msg : String)
  deriving DecidableEq, Repr

/-- The rendering of a Go error's message, as `Error()` would produce it. -/
def GoError.msg : GoError → String
  | .errNotFound => "Resource not found"
  | .errNew m => m
  | .parseError fn num m => "strconv." ++ fn ++ ": parsing \"" ++ num ++ "\": " ++ m

/-- Kinds of struct fields, mirroring the `reflect.Kind` cases that appear in
the decoder's switch statement.  `kOther` stands for every other kind. -/
inductive Kind
  | kString
  | kInt
  | kInt8
  | kInt16
  | kInt32
  | kInt64
  | kUint
  | kUint8
  | kUint16
  | kUint32
  | kUint64
  | kFloat32
  | kFloat64
  | kBool
  | kOther
  deriving DecidableEq, Repr

/-- Grouping of kinds exactly as the decoder's switch statement groups its
cases, with the bit width used by the subsequent reflect store.  The generic
`int`/`uint` kinds are 64 bits wide on the platforms this package targets. -/
inductive KClass
  | cString
  | cInt (bits : Nat)
  | cUint (bits : Nat)
  | cFloat (bits : Nat)
  | cBool
  | cOther
  deriving DecidableEq, Repr

/-- Classify a kind the way the decoder's switch does. -/
def Kind.cls : Kind → KClass
  | .kString => .cString
  | .kInt => .cInt 64
  | .kInt8 => .cInt 8
  | .kInt16 => .cInt 16
  | .kInt32 => .cInt 32
  | .kInt64 => .cInt 64
  | .kUint => .cUint 64
  | .kUint8 => .cUint 8
  | .kUint16 => .cUint 16
  | .kUint32 => .cUint 32
  | .kUint64 => .cUint 64
  | .kFloat32 => .cFloat 32
  | .kFloat64 => .cFloat 64
  | .kBool => .cBool
  | .kOther => .cOther

/-- A kind is supported when the decoder's switch has a case for it. -/
def Kind.isSupported (k : Kind) : Bool :=
  match k.cls with
  | .cOther => false
  | _ => true

/-- Numeric value of a decimal digit character, if it is one. -/
def digitVal (c : Char) : Option Nat :=
  if '0' ≤ c ∧ c ≤ '9' then some (c.toNat - '0'.toNat) else none

/-- Lower-case a character the way strconv's `lower` does for ASCII letters. -/
def lowerC (c : Char) : Char :=
  if 'A' ≤ c ∧ c ≤ 'Z' then Char.ofNat (c.toNat + 32) else c

/-- Largest value representable in a `uint64`. -/
def maxU64 : Nat := 2 ^ 64 - 1

/-- Digit-accumulation loop of `strconv.ParseUint` for base 10 and
bitSize 64: each non-digit character is an immediate syntax error, and
exceeding the `uint64` range is an immediate range error.  `fn` and `num`
are the function name and input recorded in the resulting `NumError`. -/
def uintLoop (fn num : String) : List Char → Nat → Except GoError Nat
  | [], n => .ok n
  | c :: rest, n =>
    match digitVal c with
    | none => .error (.parseError fn num "invalid syntax")
    | some d =>
      if maxU64 / 10 + 1 ≤ n then .error (.parseError fn num "value out of range")
      else if maxU64 < n * 10 + d then .error (.parseError fn num "value out of range")
      else uintLoop fn num rest (n * 10 + d)

/-- Model of `strconv.ParseUint(s, 10, 64)`: no sign is permitted, the string
must be nonempty, and underscores are rejected because the base is given
explicitly. -/
def goParseUint (s : String) : Except GoError Nat :=
  match s.toList with
  | [] => .error (.parseError "ParseUint" s "invalid syntax")
  | cs => uintLoop "ParseUint" s cs 0

/-- Model of `strconv.ParseInt(s, 10, 64)`: optional sign, then the unsigned
digit loop; an unsigned range overflow surfaces as an `int64` range error just
as in the original, because the overflowed magnitude necessarily exceeds the
signed cutoff as well. -/
def goParseInt (s : String) : Except GoError Int :=
  match s.toList with
  | [] => .error (.parseError "ParseInt" s "invalid syntax")
  | c :: rest =>
    let neg : Bool := c = '-'
    let digits : List Char := if c = '-' ∨ c = '+' then rest else c :: rest
    match digits with
    | [] => .error (.parseError "ParseInt" s "invalid syntax")
    | ds =>
      match uintLoop "ParseInt" s ds 0 with
      | .error e => .error e
      | .ok un =>
        if neg = false ∧ 2 ^ 63 ≤ un then
          .error (.parseError "ParseInt" s "value out of range")
        else if neg = true ∧ 2 ^ 63 < un then
          .error (.parseError "ParseInt" s "value out of range")
        else
          .ok (if neg then -(un : Int) else (un : Int))

/-- Symbolic floating-point parse results: a decimal mantissa/exponent pair, a
hexadecimal mantissa with a binary exponent, infinities and NaN.  The
framework never computes with these values, so no binary rounding is
performed on them. -/
inductive FVal
  | fdec (neg : Bool) (m : Nat) (e10 : Int)
  | fhex (neg : Bool) (m : Nat) (e2 : Int)
  | finf (neg : Bool)
  | fnan
  deriving DecidableEq, Repr

/-- Result of scanning a run of digits that may be interspersed with
underscores: the digits kept, whether an underscore was seen, and the
remaining input. -/
structure ScanOut where
  digits : List Char
  underscore : Bool
  rest : List Char
  deriving Repr

/-- Is this character a digit of the mantissa base (hexadecimal when `hex`)? -/
def isBaseDigit (hex : Bool) (c : Char) : Bool :=
  ('0' ≤ c && c ≤ '9') || (hex && ('a' ≤ lowerC c && lowerC c ≤ 'f'))

/-- Scan a maximal run of base digits and underscores, as the scanning loop of
strconv's `readFloat` does: underscores are skipped during the scan and their
placement is validated separately afterwards. -/
def spanDigitsU (hex : Bool) : List Char → ScanOut
  | [] => ⟨[], false, []⟩
  | c :: rest =>
    if c = '_' then
      let o := spanDigitsU hex rest
      ⟨o.digits, true, o.rest⟩
    else if isBaseDigit hex c then
      let o := spanDigitsU hex rest
      ⟨c :: o.digits, o.underscore, o.rest⟩
    else
      ⟨[], false, c :: rest⟩

/-- Accumulate a digit list into a natural number in the given base. -/
def digitsToNat (base : Nat) : List Char → Nat → Nat
  | [], acc => acc
  | c :: rest, acc =>
    let d := if isBaseDigit true c && !('0' ≤ c && c ≤ '9')
             then (lowerC c).toNat - 'a'.toNat + 10
             else c.toNat - '0'.toNat
    digitsToNat base rest (acc * base + d)

/-- Inner loop of strconv's `underscoreOK`: `saw` tracks the class of the last
character seen, exactly as in the original (caret for start of number, zero
for a digit or base prefix, underscore, and bang for anything else). -/
def underscoreLoop (hex : Bool) : List Char → Char → Bool
  | [], saw => saw ≠ '_'
  | c :: rest, saw =>
    if isBaseDigit hex c then underscoreLoop hex rest '0'
    else if c = '_' then
      if saw ≠ '0' then false else underscoreLoop hex rest '_'
    else if saw = '_' then false
    else underscoreLoop hex rest '!'

/-- Model of strconv's `underscoreOK`: underscores must separate successive
digits or follow a base prefix. -/
def underscoreOK (cs0 : List Char) : Bool :=
  let cs1 := match cs0 with
    | c :: r => if c = '-' ∨ c = '+' then r else cs0
    | [] => cs0
  match cs1 with
  | '0' :: c :: r =>
    if lowerC c = 'x' then underscoreLoop true r '0'
    else if lowerC c = 'b' ∨ lowerC c = 'o' then underscoreLoop false r '0'
    else underscoreLoop false cs1 '^'
  | _ => underscoreLoop false cs1 '^'

/-- Number of decimal digits of a nonzero natural number (fuel-based). -/
def digCountAux : Nat → Nat → Nat
  | 0, _ => 0
  | fuel + 1, n => if n < 10 then 1 else digCountAux fuel (n / 10) + 1

/-- Number of decimal digits of a natural number; 0 has zero digits here,
matching the fact that strconv's decimal representation drops leading
zeros and treats an all-zero mantissa specially. -/
def digCount (n : Nat) : Nat := digCountAux n n

/-- Exact overflow threshold for `float64`: the smallest magnitude that rounds
to infinity under round-to-nearest-even. -/
def maxT : Nat := 2 ^ 1024 - 2 ^ 970

/-- Does the decimal value `m * 10 ^ e` overflow a `float64`?  The decimal
position shortcut keeps the exact comparison confined to the boundary
window, mirroring strconv's cheap test on the decimal point position. -/
def decOver (m : Nat) (e : Int) : Bool :=
  let dp : Int := (digCount m : Int) + e
  if 311 ≤ dp then true
  else if dp ≤ 308 then false
  else if 0 ≤ e then decide (maxT ≤ m * 10 ^ e.toNat)
  else decide (maxT * 10 ^ (-e).toNat ≤ m)

/-- Does the decimal value `m * 10 ^ e` fall below strconv's coarse underflow
cutoff (decimal point position below -330), which `ParseFloat` reports as a
range error while returning zero? -/
def decUnder (m : Nat) (e : Int) : Bool :=
  m ≠ 0 && decide ((digCount m : Int) + e < -330)

/-- Number of binary digits of a natural number (fuel-based). -/
def bitCountAux : Nat → Nat → Nat
  | 0, _ => 0
  | fuel + 1, n => if n < 2 then 1 else bitCountAux fuel (n / 2) + 1

/-- Number of binary digits of a nonzero natural number. -/
def bitCount (n : Nat) : Nat := bitCountAux n n

/-- Does the hexadecimal value `m * 2 ^ e` overflow a `float64`?  Hexadecimal
conversion in strconv reports a range error only on overflow; underflow is
silently flushed to zero. -/
def hexOver (m : Nat) (e : Int) : Bool :=
  if m = 0 then false
  else
    let bp : Int := (bitCount m : Int) + e
    if 1026 ≤ bp then true
    else if bp ≤ 1023 then false
    else if 0 ≤ e then decide (maxT ≤ m * 2 ^ e.toNat)
    else decide (maxT * 2 ^ (-e).toNat ≤ m)

/-- Strip an optional leading sign, reporting whether it was a minus. -/
def splitSign : List Char → Bool × List Char
  | '-' :: rest => (true, rest)
  | '+' :: rest => (false, rest)
  | cs => (false, cs)

/-- Model of strconv's `special`: an optional sign followed by the whole word
`inf` or `infinity` (case-insensitive), or the unsigned word `nan`.  A signed
`nan` is not special, exactly as in the original where the sign case falls
through to the infinity test only. -/
def floatSpecial (cs : List Char) : Option FVal :=
  match cs with
  | [] => none
  | c :: rest =>
    let signed := c = '-' ∨ c = '+'
    let neg := c = '-'
    let body := if signed then rest else cs
    let l := body.map lowerC
    if l = ['i', 'n', 'f'] ∨ l = ['i', 'n', 'f', 'i', 'n', 'i', 't', 'y'] then
      some (.finf neg)
    else if ¬signed ∧ l = ['n', 'a', 'n'] then some .fnan
    else none

/-- Parse the exponent part of a float (after the `e`/`E`/`p`/`P` marker):
an optional sign and at least one decimal digit, with underscores scanned the
same way as mantissa digits.  Returns the signed exponent, whether an
underscore was seen, and the rest of the input. -/
def scanExp (cs : List Char) : Option (Int × Bool × List Char) :=
  let sp := splitSign cs
  let o := spanDigitsU false sp.2
  if o.digits = [] then none
  else
    let v : Int := (digitsToNat 10 o.digits 0 : Int)
    some (if sp.1 then -v else v, o.underscore, o.rest)

/-- Decimal branch of strconv's `readFloat` plus the range analysis of
`atof64`: integer digits, optional fraction, optional decimal exponent, full
consumption of the input, underscore validation, and the overflow/underflow
range errors. -/
def readDec (orig : String) (neg : Bool) (cs : List Char) : Except GoError FVal :=
  let oi := spanDigitsU false cs
  let fr : ScanOut :=
    match oi.rest with
    | '.' :: r => spanDigitsU false r
    | _ => ⟨[], false, oi.rest⟩
  let sawDot : Bool := match oi.rest with
    | '.' :: _ => true
    | _ => false
  if oi.digits = [] ∧ fr.digits = [] then
    .error (.parseError "ParseFloat" orig "invalid syntax")
  else
    let afterMant := if sawDot then fr.rest else oi.rest
    let expPart : Option (Option (Int × Bool × List Char)) :=
      match afterMant with
      | c :: r => if lowerC c = 'e' then some (scanExp r) else none
      | [] => none
    match expPart with
    | some none => .error (.parseError "ParseFloat" orig "invalid syntax")
    | some (some (ev, eu, erest)) =>
      if erest ≠ [] then .error (.parseError "ParseFloat" orig "invalid syntax")
      else
        finishDec orig neg oi fr ev eu
    | none =>
      if afterMant ≠ [] then .error (.parseError "ParseFloat" orig "invalid syntax")
      else
        finishDec orig neg oi fr 0 false
where
  /-- Assemble the mantissa and exponent, validate underscores, and apply the
  range checks. -/
  finishDec (orig : String) (neg : Bool) (oi fr : ScanOut) (ev : Int)
      (eu : Bool) : Except GoError FVal :=
    if (oi.underscore || fr.underscore || eu) && !underscoreOK orig.toList then
      .error (.parseError "ParseFloat" orig "invalid syntax")
    else
      let m := digitsToNat 10 (oi.digits ++ fr.digits) 0
      let e10 : Int := ev - (fr.digits.length : Int)
      if m = 0 then .ok (.fdec neg 0 0)
      else if decOver m e10 then
        .error (.parseError "ParseFloat" orig "value out of range")
      else if decUnder m e10 then
        .error (.parseError "ParseFloat" orig "value out of range")
      else .ok (.fdec neg m e10)

/-- Hexadecimal branch of strconv's `readFloat` plus `atofHex`: hex mantissa
digits with an optional hex fraction, a mandatory binary exponent marked by
`p`, full consumption, underscore validation, and a range error on overflow
only. -/
def readHex (orig : String) (neg : Bool) (cs : List Char) : Except GoError FVal :=
  let oi := spanDigitsU true cs
  let fr : ScanOut :=
    match oi.rest with
    | '.' :: r => spanDigitsU true r
    | _ => ⟨[], false, oi.rest⟩
  let sawDot : Bool := match oi.rest with
    | '.' :: _ => true
    | _ => false
  if oi.digits = [] ∧ fr.digits = [] then
    .error (.parseError "ParseFloat" orig "invalid syntax")
  else
    let afterMant := if sawDot then fr.rest else oi.rest
    match afterMant with
    | c :: r =>
      if lowerC c = 'p' then
        match scanExp r with
        | none => .error (.parseError "ParseFloat" orig "invalid syntax")
        | some (ev, eu, erest) =>
          if erest ≠ [] then .error (.parseError "ParseFloat" orig "invalid syntax")
          else if (oi.underscore || fr.underscore || eu) && !underscoreOK orig.toList then
            .error (.parseError "ParseFloat" orig "invalid syntax")
          else
            let m := digitsToNat 16 (oi.digits ++ fr.digits) 0
            let e2 : Int := ev - 4 * (fr.digits.length : Int)
            if m = 0 then .ok (.fhex neg 0 0)
            else if hexOver m e2 then
              .error (.parseError "ParseFloat" orig "value out of range")
            else .ok (.fhex neg m e2)
      else .error (.parseError "ParseFloat" orig "invalid syntax")
    | [] => .error (.parseError "ParseFloat" orig "invalid syntax")

/-- Model of `strconv.ParseFloat(s, 64)`: the special words, otherwise an
optional sign followed by a decimal or (after a `0x` prefix) hexadecimal
mantissa and exponent. -/
def goParseFloat (s : String) : Except GoError FVal :=
  match floatSpecial s.toList with
  | some fv => .ok fv
  | none =>
    let sp := splitSign s.toList
    match sp.2 with
    | '0' :: c :: r =>
      if lowerC c = 'x' then readHex s sp.1 r
      else readDec s sp.1 sp.2
    | cs => readDec s sp.1 cs

/-- JSON-encodable values, plus a marker constructor for Go values that
`encoding/json` cannot marshal (channels, functions, cyclic data); resources
returned by handlers are modelled at this level. -/
inductive JVal
  | jnull
  | jbool (b : Bool)
  | jint (n : Int)
  | jstr (s : String)
  | jarr (elems : List JVal)
  | jobj (fields : List (String × JVal))
  | junencodable (tag : Nat)

/-- Decimal digits of a natural number (fuel-based helper). -/
def natDigsAux : Nat → Nat → List Char
  | 0, _ => []
  | fuel + 1, n =>
    if n < 10 then [Char.ofNat ('0'.toNat + n)]
    else natDigsAux fuel (n / 10) ++ [Char.ofNat ('0'.toNat + n % 10)]

/-- Render a natural number in decimal. -/
def natToStr (n : Nat) : String := ⟨natDigsAux (n + 1) n⟩

/-- Render an integer in decimal. -/
def intToStr (n : Int) : String :=
  if n < 0 then "-" ++ natToStr n.natAbs else natToStr n.natAbs

/-- Quote a string as JSON does.  Escaping of special characters is not
modelled; none of the strings handled in this development require it. -/
def jsonQuote (s : String) : String := "\"" ++ s ++ "\""

mutual

/-- The JSON text `encoding/json` produces for an encodable value. -/
def encJ : JVal → String
  | .jnull => "null"
  | .jbool b => if b then "true" else "false"
  | .jint n => intToStr n
  | .jstr s => jsonQuote s
  | .jarr l => "[" ++ encArr l ++ "]"
  | .jobj l => "\x7b" ++ encObj l ++ "\x7d"
  | .junencodable _ => ""

/-- Comma-joined encodings of array elements, in order. -/
def encArr : List JVal → String
  | [] => ""
  | [x] => encJ x
  | x :: y :: rest => encJ x ++ "," ++ encArr (y :: rest)

/-- Comma-joined encodings of object members, in order. -/
def encObj : List (String × JVal) → String
  | [] => ""
  | [kv] => jsonQuote kv.1 ++ ":" ++ encJ kv.2
  | kv :: kv2 :: rest => jsonQuote kv.1 ++ ":" ++ encJ kv.2 ++ "," ++ encObj (kv2 :: rest)

end

mutual

/-- Whether `encoding/json` can marshal this value without error. -/
def jvalOK : JVal → Bool
  | .jnull => true
  | .jbool _ => true
  | .jint _ => true
  | .jstr _ => true
  | .jarr l => arrOK l
  | .jobj l => objOK l
  | .junencodable _ => false

/-- Every array element is marshalable. -/
def arrOK : List JVal → Bool
  | [] => true
  | x :: rest => jvalOK x && arrOK rest

/-- Every object member is marshalable. -/
def objOK : List (String × JVal) → Bool
  | [] => true
  | kv :: rest => jvalOK kv.2 && objOK rest

end

/-- Model of `json.Marshal` on a single resource value. -/
def jsonMarshal (v : JVal) : Except GoError String :=
  if jvalOK v then .ok (encJ v)
  else .error (.errNew "json: unsupported type")

/-- A Go `[]interface` slice value as returned by `ListResource`: Go
distinguishes the nil slice from an allocated empty slice, and
`encoding/json` marshals the nil slice as the JSON value null. -/
inductive GoSlice
  | snil
  | selems (elems : List JVal)

/-- The length of a slice, as Go's `len` reports it: the nil slice also has
length zero. -/
def GoSlice.len : GoSlice → Nat
  | .snil => 0
  | .selems l => l.length

/-- Model of `json.Marshal` on a `[]interface` slice of resources, as
performed by `writeResourceList`: the nil slice encodes as null, an
allocated slice as a JSON array. -/
def jsonMarshalList : GoSlice → Except GoError String
  | .snil => .ok "null"
  | .selems l => jsonMarshal (.jarr l)

/-- One declared field of a Go struct type: its declared name, its `json` tag
string (empty when absent) and its kind. -/
structure StructField where
  name : String
  tag : String
  kind : Kind
  deriving DecidableEq, Repr

/-- A Go struct type: the ordered list of its declared fields.  Distinct Lean
values of this type model distinct `reflect.Type`s. -/
structure GoType where
  fields : List StructField
  deriving DecidableEq, Repr

/-- A cached field descriptor, mirroring the `formField` struct: the wire
name, the field's kind (standing for its `reflect.Type`), and its index in
the struct. -/
structure formField where
  name : String
  typ : Kind
  index : Nat
  deriving DecidableEq, Repr

/-- Characters of a tag up to the first comma, as `tag[0:idx]` with
`idx = strings.Index(tag, ",")` computes it. -/
def takeUntilComma : List Char → List Char
  | [] => []
  | c :: rest => if c = ',' then [] else c :: takeUntilComma rest

/-- Wire-name resolution for one struct field: a nonempty `json` tag
contributes its portion before the first comma, otherwise the declared field
name is used. -/
def wireName (sf : StructField) : String :=
  if sf.tag ≠ "" then ⟨takeUntilComma sf.tag.toList⟩ else sf.name

/-- Field descriptors for the fields of a struct, starting at index `i`;
this is the loop body of `getSchemaFields`. -/
def fieldsFrom (i : Nat) : List StructField → List formField
  | [] => []
  | sf :: rest => ⟨wireName sf, sf.kind, i⟩ :: fieldsFrom (i + 1) rest

/-- The full field-descriptor computation `getSchemaFields` performs on a
cache miss: one descriptor per declared field, in declaration order. -/
def fieldsOf (t : GoType) : List formField := fieldsFrom 0 t.fields

/-- Runtime value of one struct field, as stored through the `reflect.Value`
setters. -/
inductive FieldVal
  | vString (s : String)
  | vInt (n : Int)
  | vUint (n : Nat)
  | vFloat (f : FVal)
  | vBool (b : Bool)
  | vOther
  deriving DecidableEq, Repr

/-- An instance of a struct type: the list of its field values in
declaration order. -/
abbrev Inst := List FieldVal

/-- The zero value of a field of the given kind, as `reflect.New` produces
it. -/
def zeroVal (k : Kind) : FieldVal :=
  match k.cls with
  | .cString => .vString ""
  | .cInt _ => .vInt 0
  | .cUint _ => .vUint 0
  | .cFloat _ => .vFloat (.fdec false 0 0)
  | .cBool => .vBool false
  | .cOther => .vOther

/-- The zero instance of a struct type. -/
def zeroInst (t : GoType) : Inst := t.fields.map (fun sf => zeroVal sf.kind)

/-- Two's-complement truncation of an `int64` store into a `bits`-wide signed
field, as the typed assignment inside `reflect.Value.SetInt` performs it. -/
def truncSigned (bits : Nat) (n : Int) : Int :=
  (n + 2 ^ (bits - 1)) % (2 ^ bits) - 2 ^ (bits - 1)

/-- Truncation of a `uint64` store into a `bits`-wide unsigned field, as the
typed assignment inside `reflect.Value.SetUint` performs it. -/
def truncUnsigned (bits : Nat) (n : Nat) : Nat := n % 2 ^ bits

/-- Does a stored field value fit the declared kind of its field?  For
numeric kinds this includes the width constraint that the reflect setters
maintain by truncation.  Stored floats are kept symbolic, so only their
shape is checked. -/
def matchesKind (fv : FieldVal) (k : Kind) : Bool :=
  match fv, k.cls with
  | .vString _, .cString => true
  | .vInt n, .cInt bits => decide (-(2 ^ (bits - 1) : Int) ≤ n ∧ n < 2 ^ (bits - 1))
  | .vUint n, .cUint bits => decide (n < 2 ^ bits)
  | .vFloat _, .cFloat _ => true
  | .vBool _, .cBool => true
  | .vOther, .cOther => true
  | _, _ => false

/-- Does an instance consist of exactly one fitting value per declared
field? -/
def instMatches : Inst → List StructField → Bool
  | [], [] => true
  | fv :: rest, sf :: sfs => matchesKind fv sf.kind && instMatches rest sfs
  | _, _ => false

/-- A fully-typed instance of a struct type. -/
def ValInst (t : GoType) (inst : Inst) : Bool := instMatches inst t.fields

/-- A path-pattern segment of the router: a literal segment or a named
parameter (a segment written with a leading colon at registration time). -/
inductive Seg
  | lit (s : String)
  | param (name : String)
  deriving DecidableEq, Repr

/-- Split a path string on slashes into its nonempty segments. -/
def pathSegsAux (cur : List Char) : List Char → List String
  | [] => if cur = [] then [] else [⟨cur.reverse⟩]
  | c :: rest =>
    if c = '/' then
      if cur = [] then pathSegsAux [] rest
      else ⟨cur.reverse⟩ :: pathSegsAux [] rest
    else pathSegsAux (c :: cur) rest

/-- Segments of a path string. -/
def pathSegs (p : String) : List String := pathSegsAux [] p.toList

/-- Interpret one registered segment: a leading colon introduces a named
parameter, as in the router's pattern syntax. -/
def toSeg (x : String) : Seg :=
  match x.toList with
  | ':' :: rest => .param ⟨rest⟩
  | _ => .lit x

/-- The pattern a registration path string denotes. -/
def mkPattern (p : String) : List Seg := (pathSegs p).map toSeg

/-- A Go value passed as the resource schema: its dynamic type together with
its field values.  `parseForm` receives such a value and consults only the
type. -/
structure GoValue where
  ty : GoType
  val : Inst

/-- The capability surface of a resource handler: its path plus an optional
implementation of each interface method.  The `Updater` and `Deleter`
interfaces of the source embed `Getter`, so those capabilities require
`getResource` to be present as well. -/
structure ResourceHandler where
  path : String
  getResource : Option (String → Except GoError JVal)
  listResource : Option (Except GoError GoSlice)
  createResource : Option (Inst → Except GoError JVal)
  updateResource : Option (JVal → Inst → Except GoError JVal)
  deleteResource : Option (JVal → Option GoError)

/-- The dispatch closure a route is wired to, defunctionalized: which
per-route handler from `Server.Add` it is, together with the values the
closure captured. -/
inductive RouteAction
  | aGet (g : String → Except GoError JVal)
  | aList (l : Except GoError GoSlice)
  | aCreate (schema : GoValue) (c : Inst → Except GoError JVal)
  | aUpdate (schema : GoValue) (g : String → Except GoError JVal)
      (u : JVal → Inst → Except GoError JVal)
  | aDelete (g : String → Except GoError JVal) (d : JVal → Option GoError)

/-- One entry of the route table. -/
structure RouteEntry where
  method : Method
  pattern : List Seg
  action : RouteAction

/-- The server: its route table and the field-descriptor cache keyed by
struct type. -/
structure Server where
  routes : List RouteEntry
  formCache : List (GoType × List formField)

/-- Model of `New`: no routes, an empty cache; the catch-all not-found
handler it installs is the 404 branch of `Server.serve`. -/
def Server.new : Server := ⟨[], []⟩

/-- Lookup in the field cache.  The Go map lookup yields a nil slice exactly
when the type is absent, because every stored slice was allocated with
`make`, so an `Option` faithfully models the `fields != nil` test. -/
def cacheGet : List (GoType × List formField) → GoType → Option (List formField)
  | [], _ => none
  | e :: rest, t => if e.1 = t then some e.2 else cacheGet rest t

/-- Model of `getSchemaFields`: return the cached descriptor list if present,
otherwise compute it and store it.  The Go signature also returns an error
that is always nil, and the surrounding locks serialize the cache accesses
modelled here as plain state passing. -/
def Server.getSchemaFields (s : Server) (t : GoType) : List formField × Server :=
  match cacheGet s.formCache t with
  | some fields => (fields, s)
  | none =>
    let fields := fieldsOf t
    (fields, { s with formCache := (t, fields) :: s.formCache })

/-- An HTTP request as this framework observes it: method, path already
split into segments, and the merged form values `r.FormValue` consults
(first value per key). -/
structure Request where
  method : Method
  path : List String
  form : List (String × String)

/-- Model of `r.FormValue`: first value registered for the key, empty string
when absent. -/
def formValue : List (String × String) → String → String
  | [], _ => ""
  | kv :: rest, n => if kv.1 = n then kv.2 else formValue rest n

/-- Model of `httprouter.Params.ByName`: first parameter with the name,
empty string when absent. -/
def byName : List (String × String) → String → String
  | [], _ => ""
  | kv :: rest, n => if kv.1 = n then kv.2 else byName rest n

/-- One iteration of the decoding loop of `parseForm`: look up the form
value by wire name, skip empty values and unsupported kinds, convert and
store supported ones, aborting on a parse error. -/
def applyFormField (form : List (String × String)) (inst : Inst) (f : formField) :
    Except GoError Inst :=
  let formval := formValue form f.name
  if formval = "" then .ok inst
  else
    match f.typ.cls with
    | .cString => .ok (inst.set f.index (.vString formval))
    | .cInt bits =>
      match goParseInt formval with
      | .error e => .error e
      | .ok n => .ok (inst.set f.index (.vInt (truncSigned bits n)))
    | .cUint bits =>
      match goParseUint formval with
      | .error e => .error e
      | .ok n => .ok (inst.set f.index (.vUint (truncUnsigned bits n)))
    | .cFloat _ =>
      match goParseFloat formval with
      | .error e => .error e
      | .ok fv => .ok (inst.set f.index (.vFloat fv))
    | .cBool => .ok (inst.set f.index (.vBool (formval == "true" || formval == "1")))
    | .cOther => .ok inst

/-- The decoding loop of `parseForm` over the descriptor list, in order,
returning at the first conversion error. -/
def formLoop (form : List (String × String)) : List formField → Inst → Except GoError Inst
  | [], inst => .ok inst
  | f :: rest, inst =>
    match applyFormField form inst f with
    | .error e => .error e
    | .ok inst1 => formLoop form rest inst1

/-- Model of `parseForm`: take the schema value's type, obtain its field
descriptors (possibly updating the cache), allocate a fresh zero instance
and run the decoding loop over it. -/
def Server.parseForm (s : Server) (r : Request) (schema : GoValue) :
    Except GoError Inst × Server :=
  let t := schema.ty
  let q := s.getSchemaFields t
  (formLoop r.form q.1 (zeroInst t), q.2)

/-- An HTTP response: status code and body text. -/
structure Response where
  status : Nat
  body : String
  deriving DecidableEq, Repr

/-- One recorded invocation of a handler capability method. -/
inductive CallEvent
  | cGet (id : String)
  | cList
  | cCreate (data : Inst)
  | cUpdate (res : JVal) (data : Inst)
  | cDelete (res : JVal)

/-- Everything a request produces besides the updated server: the response,
the handler methods invoked (in order), and the lines logged server-side. -/
structure Outcome where
  resp : Response
  calls : List CallEvent
  logged : List String

/-- Model of `writeError`: the not-found sentinel maps to a bare 404; every
other error is logged and maps to a bare 500.  It is only ever called with a
non-nil error, so the nil case of the original needs no counterpart. -/
def writeError (e : GoError) : Response × List String :=
  if e = .errNotFound then (⟨404, ""⟩, [])
  else (⟨500, ""⟩, ["Unhandled error: " ++ e.msg])

/-- Model of `writeResource`: marshal the resource, logging and answering a
bare 500 on marshal failure, otherwise the given status with the JSON body. -/
def writeResource (status : Nat) (res : JVal) : Response × List String :=
  match jsonMarshal res with
  | .error e => (⟨500, ""⟩, ["Failed to marshal resource to JSON: " ++ e.msg])
  | .ok out => (⟨status, out⟩, [])

/-- Model of `writeResourceList`: like `writeResource` for a resource
slice. -/
def writeResourceList (status : Nat) (list : GoSlice) : Response × List String :=
  match jsonMarshalList list with
  | .error e => (⟨500, ""⟩, ["Failed to marshal resource to JSON: " ++ e.msg])
  | .ok out => (⟨status, out⟩, [])

/-- Model of `getRequest`: fetch by id and write the resource or the error. -/
def getRequest (getter : String → Except GoError JVal) (idv : String) : Outcome :=
  match getter idv with
  | .error e =>
    let w := writeError e
    ⟨w.1, [.cGet idv], w.2⟩
  | .ok res =>
    let w := writeResource 200 res
    ⟨w.1, [.cGet idv], w.2⟩

/-- Model of `listRequest`: list and write the slice or the error. -/
def listRequest (lister : Except GoError GoSlice) : Outcome :=
  match lister with
  | .error e =>
    let w := writeError e
    ⟨w.1, [.cList], w.2⟩
  | .ok list =>
    let w := writeResourceList 200 list
    ⟨w.1, [.cList], w.2⟩

/-- Model of `createRequest`: create from the decoded data and answer 201
with the created resource. -/
def createRequest (creator : Inst → Except GoError JVal) (data : Inst) : Outcome :=
  match creator data with
  | .error e =>
    let w := writeError e
    ⟨w.1, [.cCreate data], w.2⟩
  | .ok response =>
    let w := writeResource 201 response
    ⟨w.1, [.cCreate data], w.2⟩

/-- Model of `updateRequest`: fetch the existing resource first, stopping on
its error; otherwise update and answer 200 with the merged resource. -/
def updateRequest (getter : String → Except GoError JVal)
    (upd : JVal → Inst → Except GoError JVal) (idv : String) (data : Inst) : Outcome :=
  match getter idv with
  | .error e =>
    let w := writeError e
    ⟨w.1, [.cGet idv], w.2⟩
  | .ok res =>
    match upd res data with
    | .error e =>
      let w := writeError e
      ⟨w.1, [.cGet idv, .cUpdate res data], w.2⟩
    | .ok response =>
      let w := writeResource 200 response
      ⟨w.1, [.cGet idv, .cUpdate res data], w.2⟩

/-- Model of `deleteRequest`: fetch the existing resource first, stopping on
its error; otherwise delete and answer a bare 200. -/
def deleteRequest (getter : String → Except GoError JVal)
    (del : JVal → Option GoError) (idv : String) : Outcome :=
  match getter idv with
  | .error e =>
    let w := writeError e
    ⟨w.1, [.cGet idv], w.2⟩
  | .ok res =>
    match del res with
    | some e =>
      let w := writeError e
      ⟨w.1, [.cGet idv, .cDelete res], w.2⟩
    | none => ⟨⟨200, ""⟩, [.cGet idv, .cDelete res], []⟩

/-- Run the dispatch closure of a matched route: the write closures from
`Server.Add` decode the form first and answer the write error on decode
failure without touching the handler. -/
def Server.dispatch (s : Server) (a : RouteAction) (idv : String) (r : Request) :
    Server × Outcome :=
  match a with
  | .aGet g => (s, getRequest g idv)
  | .aList l => (s, listRequest l)
  | .aCreate schema c =>
    let q := s.parseForm r schema
    match q.1 with
    | .error e =>
      let w := writeError e
      (q.2, ⟨w.1, [], w.2⟩)
    | .ok data => (q.2, createRequest c data)
  | .aUpdate schema g u =>
    let q := s.parseForm r schema
    match q.1 with
    | .error e =>
      let w := writeError e
      (q.2, ⟨w.1, [], w.2⟩)
    | .ok data => (q.2, updateRequest g u idv data)
  | .aDelete g d => (s, deleteRequest g d idv)

/-- Match a request path against a registered pattern, collecting parameter
bindings. -/
def matchPattern : List Seg → List String → Option (List (String × String))
  | [], [] => some []
  | .lit l :: ps, x :: xs => if l = x then matchPattern ps xs else none
  | .param n :: ps, x :: xs => (matchPattern ps xs).map (fun bs => (n, x) :: bs)
  | _, _ => none

/-- Find the first route whose method and pattern match the request. -/
def findRoute : List RouteEntry → Method → List String →
    Option (RouteAction × List (String × String))
  | [], _, _ => none
  | e :: rest, m, segs =>
    if e.method = m then
      match matchPattern e.pattern segs with
      | some ps => some (e.action, ps)
      | none => findRoute rest m segs
    else findRoute rest m segs

/-- Model of `ServeHTTP` through the router: dispatch the first matching
route, or answer the catch-all 404 with an empty body and no handler
involvement. -/
def Server.serve (s : Server) (r : Request) : Server × Outcome :=
  match findRoute s.routes r.method r.path with
  | some q => s.dispatch q.1 (byName q.2 "id") r
  | none => (s, ⟨⟨404, ""⟩, [], []⟩)

/-- Model of `Server.Add`: probe the handler's capabilities in source order
and register the corresponding routes.  The create closure is registered for
both POST and PUT; update and delete require the embedded `Getter`. -/
def Server.add (s : Server) (resourceSchema : GoValue) (handler : ResourceHandler) :
    Server :=
  let path := handler.path
  let getRoutes : List RouteEntry :=
    match handler.getResource with
    | some g => [⟨.GET, mkPattern ("/" ++ path ++ "/:id"), .aGet g⟩]
    | none => []
  let listRoutes : List RouteEntry :=
    match handler.listResource with
    | some l => [⟨.GET, mkPattern ("/" ++ path), .aList l⟩]
    | none => []
  let createRoutes : List RouteEntry :=
    match handler.createResource with
    | some c =>
      let fn := RouteAction.aCreate resourceSchema c
      [⟨.POST, mkPattern ("/" ++ path), fn⟩, ⟨.PUT, mkPattern ("/" ++ path), fn⟩]
    | none => []
  let updateRoutes : List RouteEntry :=
    match handler.getResource, handler.updateResource with
    | some g, some u =>
      [⟨.POST, mkPattern ("/" ++ path ++ "/:id"), .aUpdate resourceSchema g u⟩]
    | _, _ => []
  let deleteRoutes : List RouteEntry :=
    match handler.getResource, handler.deleteResource with
    | some g, some d => [⟨.DELETE, mkPattern ("/" ++ path ++ "/:id"), .aDelete g d⟩]
    | _, _ => []
  { s with
    routes := s.routes ++ getRoutes ++ listRoutes ++ createRoutes
      ++ updateRoutes ++ deleteRoutes }

/-- Is this error a `strconv` parse error? -/
def GoError.isParse : GoError → Bool
  | .parseError _ _ _ => true
  | _ => false

/-- The conversion error one descriptor would produce on this form, if any:
the branch structure mirrors `applyFormField`, with `none` wherever that
function cannot fail. -/
def fieldError (form : List (String × String)) (f : formField) : Option GoError :=
  let formval := formValue form f.name
  if formval = "" then none
  else
    match f.typ.cls with
    | .cString => none
    | .cInt _ =>
      match goParseInt formval with
      | .error e => some e
      | .ok _ => none
    | .cUint _ =>
      match goParseUint formval with
      | .error e => some e
      | .ok _ => none
    | .cFloat _ =>
      match goParseFloat formval with
      | .error e => some e
      | .ok _ => none
    | .cBool => none
    | .cOther => none

/-- The first conversion error along the descriptor list, if any. -/
def firstFieldError (form : List (String × String)) : List formField → Option GoError
  | [] => none
  | f :: rest =>
    match fieldError form f with
    | some e => some e
    | none => firstFieldError form rest

/-- The field cache is well formed when every entry stores exactly the
descriptor list a fresh computation over its type yields. -/
def cacheWF (c : List (GoType × List formField)) : Prop :=
  ∀ e ∈ c, e.2 = fieldsOf e.1

lemma cacheGet_wf {c : List (GoType × List formField)} {t : GoType}
    {fs : List formField} (hwf : cacheWF c) (h : cacheGet c t = some fs) :
    fs = fieldsOf t := by
  induction c with
  | nil => simp [cacheGet] at h
  | cons e rest ih =>
    simp only [cacheGet] at h
    split at h
    · rename_i heq
      cases h
      have := hwf e (by simp)
      rw [this, heq]
    · exact ih (fun x hx => hwf x (by simp [hx])) h

lemma applyFormField_error_iff {form : List (String × String)} {inst : Inst}
    {f : formField} {e : GoError} :
    applyFormField form inst f = .error e ↔ fieldError form f = some e := by
  simp only [applyFormField, fieldError]
  split
  · simp
  · split
    · simp
    · cases hp : goParseInt (formValue form f.name) <;> simp [hp]
    · cases hp : goParseUint (formValue form f.name) <;> simp [hp]
    · cases hp : goParseFloat (formValue form f.name) <;> simp [hp]
    · simp
    · simp

lemma applyFormField_ok_of_none {form : List (String × String)} (inst : Inst)
    {f : formField} (h : fieldError form f = none) :
    ∃ inst1, applyFormField form inst f = .ok inst1 := by
  cases ha : applyFormField form inst f with
  | error e => rw [applyFormField_error_iff.mp ha] at h; cases h
  | ok inst1 => exact ⟨inst1, rfl⟩

lemma formLoop_error_iff {form : List (String × String)} :
    ∀ {fs : List formField} {inst : Inst} {e : GoError},
    formLoop form fs inst = .error e ↔ firstFieldError form fs = some e := by
  intro fs
  induction fs with
  | nil => intro inst e; simp [formLoop, firstFieldError]
  | cons f rest ih =>
    intro inst e
    simp only [formLoop, firstFieldError]
    cases hfe : fieldError form f with
    | some e0 =>
      have := (@applyFormField_error_iff form inst f e0).mpr hfe
      rw [this]
      simp
    | none =>
      obtain ⟨inst1, h1⟩ := applyFormField_ok_of_none inst hfe
      rw [h1]
      exact ih

lemma uintLoop_error_isParse {fn num : String} :
    ∀ {cs : List Char} {n : Nat} {e : GoError},
    uintLoop fn num cs n = .error e → e.isParse = true := by
  intro cs
  induction cs with
  | nil => intro n e h; simp [uintLoop] at h
  | cons c rest ih =>
    intro n e h
    simp only [uintLoop] at h
    split at h
    · cases h; rfl
    · split at h
      · cases h; rfl
      · split at h
        · cases h; rfl
        · exact ih h

lemma goParseInt_error_isParse {s : String} {e : GoError}
    (h : goParseInt s = .error e) : e.isParse = true := by
  simp only [goParseInt] at h
  split at h
  · cases h; rfl
  · split at h
    · cases h; rfl
    · split at h
      · rename_i heq
        cases h
        exact uintLoop_error_isParse heq
      · split at h
        · cases h; rfl
        · split at h
          · cases h; rfl
          · cases h

lemma goParseUint_error_isParse {s : String} {e : GoError}
    (h : goParseUint s = .error e) : e.isParse = true := by
  simp only [goParseUint] at h
  split at h
  · cases h; rfl
  · exact uintLoop_error_isParse h

lemma finishDec_error_isParse {orig : String} {neg : Bool} {oi fr : ScanOut}
    {ev : Int} {eu : Bool} {e : GoError}
    (h : readDec.finishDec orig neg oi fr ev eu = .error e) : e.isParse = true := by
  simp only [readDec.finishDec] at h
  repeat' split at h
  all_goals (cases h <;> rfl)

lemma readDec_error_isParse {orig : String} {neg : Bool} {cs : List Char}
    {e : GoError} (h : readDec orig neg cs = .error e) : e.isParse = true := by
  simp only [readDec] at h
  repeat' split at h
  all_goals first
    | (cases h <;> rfl)
    | exact finishDec_error_isParse h

lemma readHex_error_isParse {orig : String} {neg : Bool} {cs : List Char}
    {e : GoError} (h : readHex orig neg cs = .error e) : e.isParse = true := by
  simp only [readHex] at h
  repeat' split at h
  all_goals (cases h <;> rfl)

lemma goParseFloat_error_isParse {s : String} {e : GoError}
    (h : goParseFloat s = .error e) : e.isParse = true := by
  simp only [goParseFloat] at h
  split at h
  · cases h
  · split at h
    · split at h
      · exact readHex_error_isParse h
      · exact readDec_error_isParse h
    · exact readDec_error_isParse h

lemma fieldError_isParse {form : List (String × String)} {f : formField}
    {e : GoError} (h : fieldError form f = some e) : e.isParse = true := by
  simp only [fieldError] at h
  split at h
  · cases h
  · split at h
    · cases h
    · split at h
      · cases h; exact goParseInt_error_isParse (by assumption)
      · cases h
    · split at h
      · cases h; exact goParseUint_error_isParse (by assumption)
      · cases h
    · split at h
      · cases h; exact goParseFloat_error_isParse (by assumption)
      · cases h
    · cases h
    · cases h

lemma firstFieldError_isParse {form : List (String × String)} :
    ∀ {fs : List formField} {e : GoError},
    firstFieldError form fs = some e → e.isParse = true := by
  intro fs
  induction fs with
  | nil => intro e h; simp [firstFieldError] at h
  | cons f rest ih =>
    intro e h
    simp only [firstFieldError] at h
    split at h
    · cases h; exact fieldError_isParse (by assumption)
    · exact ih h

lemma isParse_ne_notFound {e : GoError} (h : e.isParse = true) :
    e ≠ .errNotFound := by
  cases e <;> simp_all [GoError.isParse]

lemma matchesKind_zeroVal (k : Kind) : matchesKind (zeroVal k) k = true := by
  cases k <;> decide

lemma instMatches_zero (sfs : List StructField) :
    instMatches (sfs.map fun sf => zeroVal sf.kind) sfs = true := by
  induction sfs with
  | nil => rfl
  | cons sf rest ih => simp [instMatches, matchesKind_zeroVal, ih]

lemma valInst_zeroInst (t : GoType) : ValInst t (zeroInst t) = true :=
  instMatches_zero t.fields

lemma cls_cInt_pos {k : Kind} {bits : Nat} (h : k.cls = .cInt bits) : 1 ≤ bits := by
  cases k <;> simp [Kind.cls] at h <;> omega

lemma truncSigned_range {bits : Nat} (hb : 1 ≤ bits) (n : Int) :
    -(2 ^ (bits - 1) : Int) ≤ truncSigned bits n ∧
      truncSigned bits n < 2 ^ (bits - 1) := by
  obtain ⟨b, rfl⟩ : ∃ b, bits = b + 1 := ⟨bits - 1, (Nat.succ_pred_eq_of_pos hb).symm⟩
  unfold truncSigned
  simp only [Nat.add_sub_cancel]
  have h2 : (2 : Int) ^ (b + 1) = 2 * 2 ^ b := by rw [pow_succ]; ring
  have hpos : (0 : Int) < 2 ^ (b + 1) := by positivity
  have hlo := Int.emod_nonneg (n + 2 ^ b) (ne_of_gt hpos)
  have hhi := Int.emod_lt_of_pos (n + 2 ^ b) hpos
  omega

lemma truncUnsigned_lt (bits : Nat) (n : Nat) : truncUnsigned bits n < 2 ^ bits :=
  Nat.mod_lt _ (Nat.pos_pow_of_pos bits (by omega))

lemma matchesKind_string {k : Kind} (h : k.cls = .cString) (s : String) :
    matchesKind (.vString s) k = true := by
  simp [matchesKind, h]

lemma matchesKind_int {k : Kind} {bits : Nat} (h : k.cls = .cInt bits) (n : Int) :
    matchesKind (.vInt (truncSigned bits n)) k = true := by
  simp only [matchesKind, h, decide_eq_true_eq]
  exact truncSigned_range (cls_cInt_pos h) n

lemma matchesKind_uint {k : Kind} {bits : Nat} (h : k.cls = .cUint bits) (n : Nat) :
    matchesKind (.vUint (truncUnsigned bits n)) k = true := by
  simp only [matchesKind, h, decide_eq_true_eq]
  exact truncUnsigned_lt bits n

lemma matchesKind_float {k : Kind} {bits : Nat} (h : k.cls = .cFloat bits) (fv : FVal) :
    matchesKind (.vFloat fv) k = true := by
  simp [matchesKind, h]

lemma matchesKind_bool {k : Kind} (h : k.cls = .cBool) (b : Bool) :
    matchesKind (.vBool b) k = true := by
  simp [matchesKind, h]

lemma instMatches_set :
    ∀ {inst : Inst} {sfs : List StructField} {i : Nat} {sf : StructField}
      {v : FieldVal},
    instMatches inst sfs = true → sfs.get? i = some sf →
    matchesKind v sf.kind = true → instMatches (inst.set i v) sfs = true := by
  intro inst
  induction inst with
  | nil =>
    intro sfs i sf v h hget _
    cases sfs with
    | nil => simp at hget
    | cons _ _ => simp [instMatches] at h
  | cons fv rest ih =>
    intro sfs i sf v h hget hm
    cases sfs with
    | nil => simp [instMatches] at h
    | cons sf0 sfs0 =>
      simp only [instMatches, Bool.and_eq_true] at h
      cases i with
      | zero =>
        simp only [List.get?] at hget
        cases hget
        simp [List.set, instMatches, hm, h.2]
      | succ j =>
        simp only [List.get?] at hget
        simp [List.set, instMatches, h.1, ih h.2 hget hm]

lemma mem_fieldsFrom :
    ∀ {sfs : List StructField} {i : Nat} {f : formField},
    f ∈ fieldsFrom i sfs →
    ∃ j sf, sfs.get? j = some sf ∧ f.index = i + j ∧ f.typ = sf.kind := by
  intro sfs
  induction sfs with
  | nil => intro i f h; simp [fieldsFrom] at h
  | cons sf0 rest ih =>
    intro i f h
    simp only [fieldsFrom, List.mem_cons] at h
    rcases h with h | h
    · exact ⟨0, sf0, rfl, by simp [h], by simp [h]⟩
    · obtain ⟨j, sf, hget, hidx, htyp⟩ := ih h
      exact ⟨j + 1, sf, by simpa using hget, by omega, htyp⟩

lemma mem_fieldsOf {t : GoType} {f : formField} (h : f ∈ fieldsOf t) :
    ∃ sf, t.fields.get? f.index = some sf ∧ f.typ = sf.kind := by
  obtain ⟨j, sf, hget, hidx, htyp⟩ := mem_fieldsFrom h
  exact ⟨sf, by simpa [hidx] using hget, htyp⟩

lemma applyFormField_matches {form : List (String × String)} {t : GoType}
    {f : formField} {inst inst1 : Inst} (hf : f ∈ fieldsOf t)
    (h : instMatches inst t.fields = true)
    (ha : applyFormField form inst f = .ok inst1) :
    instMatches inst1 t.fields = true := by
  obtain ⟨sf, hget, htyp⟩ := mem_fieldsOf hf
  simp only [applyFormField] at ha
  split at ha
  · cases ha; exact h
  · cases hcls : f.typ.cls with
    | cString =>
      rw [hcls] at ha
      cases ha
      exact instMatches_set h hget (matchesKind_string (htyp ▸ hcls) _)
    | cInt bits =>
      rw [hcls] at ha
      cases hp : goParseInt (formValue form f.name) with
      | error e => rw [hp] at ha; cases ha
      | ok n =>
        rw [hp] at ha
        cases ha
        exact instMatches_set h hget (matchesKind_int (htyp ▸ hcls) n)
    | cUint bits =>
      rw [hcls] at ha
      cases hp : goParseUint (formValue form f.name) with
      | error e => rw [hp] at ha; cases ha
      | ok n =>
        rw [hp] at ha
        cases ha
        exact instMatches_set h hget (matchesKind_uint (htyp ▸ hcls) n)
    | cFloat bits =>
      rw [hcls] at ha
      cases hp : goParseFloat (formValue form f.name) with
      | error e => rw [hp] at ha; cases ha
      | ok fv =>
        rw [hp] at ha
        cases ha
        exact instMatches_set h hget (matchesKind_float (htyp ▸ hcls) fv)
    | cBool =>
      rw [hcls] at ha
      cases ha
      exact instMatches_set h hget (matchesKind_bool (htyp ▸ hcls) _)
    | cOther =>
      rw [hcls] at ha
      cases ha
      exact h

lemma formLoop_matches {form : List (String × String)} {t : GoType} :
    ∀ {fs : List formField} {inst inst1 : Inst},
    (∀ f ∈ fs, f ∈ fieldsOf t) → instMatches inst t.fields = true →
    formLoop form fs inst = .ok inst1 → instMatches inst1 t.fields = true := by
  intro fs
  induction fs with
  | nil =>
    intro inst inst1 _ h hl
    simp only [formLoop] at hl
    cases hl
    exact h
  | cons f rest ih =>
    intro inst inst1 hmem h hl
    simp only [formLoop] at hl
    cases ha : applyFormField form inst f with
    | error e => rw [ha] at hl; cases hl
    | ok instm =>
      rw [ha] at hl
      exact ih (fun x hx => hmem x (by simp [hx]))
        (applyFormField_matches (hmem f (by simp)) h ha) hl

lemma getSchemaFields_fst {s : Server} {t : GoType} (hwf : cacheWF s.formCache) :
    (s.getSchemaFields t).1 = fieldsOf t := by
  simp only [Server.getSchemaFields]
  cases hc : cacheGet s.formCache t with
  | none => rfl
  | some fs => exact cacheGet_wf hwf hc

lemma getSchemaFields_wf {s : Server} {t : GoType} (hwf : cacheWF s.formCache) :
    cacheWF (s.getSchemaFields t).2.formCache := by
  simp only [Server.getSchemaFields]
  cases hc : cacheGet s.formCache t with
  | none =>
    intro e he
    simp only [List.mem_cons] at he
    rcases he with he | he
    · rw [he]
    · exact hwf e he
  | some fs => exact hwf

lemma getSchemaFields_hit {s : Server} {t : GoType} {fs : List formField}
    (hc : cacheGet s.formCache t = some fs) : (s.getSchemaFields t).2 = s := by
  simp [Server.getSchemaFields, hc]

lemma getSchemaFields_cached {s : Server} {t : GoType} (hwf : cacheWF s.formCache) :
    cacheGet (s.getSchemaFields t).2.formCache t = some (fieldsOf t) := by
  simp only [Server.getSchemaFields]
  cases hc : cacheGet s.formCache t with
  | none => simp [cacheGet]
  | some fs => simpa [hc] using congrArg some (cacheGet_wf hwf hc)

lemma parseForm_fst {s : Server} {r : Request} {schema : GoValue}
    (hwf : cacheWF s.formCache) :
    (s.parseForm r schema).1 =
      formLoop r.form (fieldsOf schema.ty) (zeroInst schema.ty) := by
  simp only [Server.parseForm]
  rw [getSchemaFields_fst hwf]

lemma parseForm_ok_valInst {s : Server} {r : Request} {schema : GoValue}
    {inst : Inst} (hwf : cacheWF s.formCache)
    (h : (s.parseForm r schema).1 = .ok inst) : ValInst schema.ty inst = true := by
  rw [parseForm_fst hwf] at h
  exact formLoop_matches (fun f hf => hf) (valInst_zeroInst schema.ty) h

lemma parseForm_error_first {s : Server} {r : Request} {schema : GoValue}
    {e : GoError} (hwf : cacheWF s.formCache)
    (h : (s.parseForm r schema).1 = .error e) :
    firstFieldError r.form (fieldsOf schema.ty) = some e := by
  rw [parseForm_fst hwf] at h
  exact formLoop_error_iff.mp h

lemma serve_eq_dispatch {s : Server} {r : Request} {a : RouteAction}
    {ps : List (String × String)}
    (hfind : findRoute s.routes r.method r.path = some (a, ps)) :
    s.serve r = s.dispatch a (byName ps "id") r := by
  simp only [Server.serve, hfind]

lemma serve_not_found {s : Server} {r : Request}
    (hfind : findRoute s.routes r.method r.path = none) :
    s.serve r = (s, ⟨⟨404, ""⟩, [], []⟩) := by
  simp only [Server.serve, hfind]

lemma dispatch_create_err {s : Server} {r : Request} {schema : GoValue}
    {c : Inst → Except GoError JVal} {idv : String} {e : GoError}
    (hp : (s.parseForm r schema).1 = .error e) :
    s.dispatch (.aCreate schema c) idv r =
      ((s.parseForm r schema).2, ⟨(writeError e).1, [], (writeError e).2⟩) := by
  simp only [Server.dispatch, hp]

lemma dispatch_create_ok {s : Server} {r : Request} {schema : GoValue}
    {c : Inst → Except GoError JVal} {idv : String} {data : Inst}
    (hp : (s.parseForm r schema).1 = .ok data) :
    s.dispatch (.aCreate schema c) idv r =
      ((s.parseForm r schema).2, createRequest c data) := by
  simp only [Server.dispatch, hp]

lemma dispatch_update_err {s : Server} {r : Request} {schema : GoValue}
    {g : String → Except GoError JVal} {u : JVal → Inst → Except GoError JVal}
    {idv : String} {e : GoError}
    (hp : (s.parseForm r schema).1 = .error e) :
    s.dispatch (.aUpdate schema g u) idv r =
      ((s.parseForm r schema).2, ⟨(writeError e).1, [], (writeError e).2⟩) := by
  simp only [Server.dispatch, hp]

lemma dispatch_update_ok {s : Server} {r : Request} {schema : GoValue}
    {g : String → Except GoError JVal} {u : JVal → Inst → Except GoError JVal}
    {idv : String} {data : Inst}
    (hp : (s.parseForm r schema).1 = .ok data) :
    s.dispatch (.aUpdate schema g u) idv r =
      ((s.parseForm r schema).2, updateRequest g u idv data) := by
  simp only [Server.dispatch, hp]

/-!
Concrete fixtures mirroring the package's own test file: a resource schema
with an `int64` id and a string name, a handler implementing all five
capabilities over two stored resources, and a handler implementing none.
-/

/-- The schema type of the test resource, with its `json` tags. -/
def testTy : GoType := ⟨[⟨"ID", "id", .kInt64⟩, ⟨"Name", "name", .kString⟩]⟩

/-- The zero schema value handed to registration. -/
def testSchema : GoValue := ⟨testTy, [.vInt 0, .vString ""]⟩

/-- The first stored test resource. -/
def res1 : JVal := .jobj [("id", .jint 1), ("name", .jstr "The Test")]

/-- The second stored test resource. -/
def res2 : JVal := .jobj [("id", .jint 2), ("name", .jstr "The Other")]

/-- The name field of a decoded test-resource instance. -/
def instName (data : Inst) : String :=
  match data.getD 1 .vOther with
  | .vString s => s
  | _ => ""

/-- Fetch-one method of the test handler. -/
def tGet : String → Except GoError JVal := fun id =>
  if id = "1" then .ok res1 else if id = "2" then .ok res2 else .error .errNotFound

/-- List method of the test handler; the Go test allocates its slice with
make, so it is non-nil. -/
def tList : Except GoError GoSlice := .ok (.selems [res1, res2])

/-- Create method of the test handler: assigns id 3. -/
def tCreate : Inst → Except GoError JVal := fun data =>
  .ok (.jobj [("id", .jint 3), ("name", .jstr (instName data))])

/-- Update method of the test handler: replaces the name. -/
def tUpdate : JVal → Inst → Except GoError JVal := fun res data =>
  match res with
  | .jobj l =>
    .ok (.jobj (l.map fun kv =>
      if kv.1 = "name" then (kv.1, .jstr (instName data)) else kv))
  | _ => .error (.errNew "Invalid resource type")

/-- Delete method of the test handler: always succeeds. -/
def tDelete : JVal → Option GoError := fun _ => none

/-- The all-capability test handler at path `test`. -/
def tHandler : ResourceHandler :=
  ⟨"test", some tGet, some tList, some tCreate, some tUpdate, some tDelete⟩

/-- The no-capability handler at path `no`. -/
def noHandler : ResourceHandler := ⟨"no", none, none, none, none, none⟩

/-- The server of the test file: both handlers registered. -/
def testServer : Server := (Server.new.add testSchema tHandler).add testSchema noHandler

/-- C2: every error reaching the response-writing point maps the exact
not-found sentinel to a bare 404; any other handler-returned error, and any
JSON marshaling failure in `writeResource`/`writeResourceList`, maps to a
bare 500 whose body is empty, with the error text only logged server-side. -/
theorem c2_error_writer (e : GoError) :
    (e = .errNotFound → writeError e = (⟨404, ""⟩, [])) ∧
    (e ≠ .errNotFound →
      writeError e = (⟨500, ""⟩, ["Unhandled error: " ++ e.msg])) ∧
    (∀ (status : Nat) (res : JVal) (e2 : GoError), jsonMarshal res = .error e2 →
      writeResource status res =
        (⟨500, ""⟩, ["Failed to marshal resource to JSON: " ++ e2.msg])) ∧
    (∀ (status : Nat) (l : GoSlice) (e2 : GoError), jsonMarshalList l = .error e2 →
      writeResourceList status l =
        (⟨500, ""⟩, ["Failed to marshal resource to JSON: " ++ e2.msg])) := by
  refine ⟨fun h => by simp [writeError, h], fun h => by simp [writeError, h],
    fun status res e2 h => by simp [writeResource, h],
    fun status l e2 h => by simp [writeResourceList, h]⟩

/-- Witness for C2 at concrete errors and an unmarshalable resource. -/
theorem c2_error_writer_witness :
    (GoError.errNew "boom" ≠ .errNotFound) ∧
    writeError (.errNew "boom") = (⟨500, ""⟩, ["Unhandled error: boom"]) ∧
    jsonMarshal (.junencodable 0) = .error (.errNew "json: unsupported type") ∧
    writeResource 200 (.junencodable 0) =
      (⟨500, ""⟩, ["Failed to marshal resource to JSON: json: unsupported type"]) :=
  ⟨by decide, (c2_error_writer (.errNew "boom")).2.1 (by decide), rfl,
    (c2_error_writer .errNotFound).2.2.1 200 (.junencodable 0)
      (.errNew "json: unsupported type") rfl⟩

/-- C10: the 404 mapping tests the error by identity, not content: only the
`ErrNotFound` sentinel value maps to 404, and a distinct error value carrying
the identical message maps to 500. -/
theorem c10_notfound_identity :
    writeError .errNotFound = (⟨404, ""⟩, []) ∧
    (∀ e : GoError, e ≠ .errNotFound → (writeError e).1.status = 500) ∧
    GoError.msg (.errNew "Resource not found") = GoError.msg .errNotFound ∧
    writeError (.errNew "Resource not found") =
      (⟨500, ""⟩, ["Unhandled error: Resource not found"]) := by
  refine ⟨rfl, fun e h => by simp [writeError, h], rfl, rfl⟩

/-- Witness for C10 at the same-message impostor error. -/
theorem c10_notfound_identity_witness :
    (GoError.errNew "Resource not found" ≠ .errNotFound) ∧
    (writeError (.errNew "Resource not found")).1.status = 500 :=
  ⟨by decide, c10_notfound_identity.2.1 (.errNew "Resource not found") (by decide)⟩

/-- C5: a boolean field decodes to true exactly when the raw form value is
the string true or the string 1; any other nonempty value decodes to false;
an empty or absent value skips the conversion and leaves the zero value. -/
theorem c5_bool_decoding (form : List (String × String)) (inst : Inst)
    (f : formField) (hk : f.typ.cls = .cBool) :
    (formValue form f.name = "" → applyFormField form inst f = .ok inst) ∧
    (formValue form f.name ≠ "" →
      applyFormField form inst f =
        .ok (inst.set f.index (.vBool
          (formValue form f.name == "true" || formValue form f.name == "1"))) ∧
      ((formValue form f.name == "true" || formValue form f.name == "1") = true ↔
        (formValue form f.name = "true" ∨ formValue form f.name = "1"))) := by
  constructor
  · intro h
    simp [applyFormField, h]
  · intro h
    refine ⟨by simp [applyFormField, h, hk], by simp⟩

/-- Witness for C5 at the form value yes, which is nonempty yet decodes to
false. -/
theorem c5_bool_decoding_witness :
    ((⟨"b", .kBool, 0⟩ : formField).typ.cls = .cBool) ∧
    (formValue [("b", "yes")] "b" ≠ "") ∧
    applyFormField [("b", "yes")] [.vBool false] ⟨"b", .kBool, 0⟩ =
      .ok (([.vBool false] : Inst).set 0 (.vBool
        (formValue [("b", "yes")] "b" == "true" ||
          formValue [("b", "yes")] "b" == "1"))) ∧
    (formValue [("b", "yes")] "b" == "true" ||
      formValue [("b", "yes")] "b" == "1") = false :=
  ⟨rfl, by decide,
    ((c5_bool_decoding [("b", "yes")] [.vBool false] ⟨"b", .kBool, 0⟩ rfl).2
      (by decide)).1,
    by decide⟩

/-- C8: under the cache invariant, `getSchemaFields` returns exactly what a
fresh computation over the type yields, preserves the invariant, leaves a hit
untouched, stores the computed list, and a repeated call returns the same
list without modifying the cache again. -/
theorem c8_schema_cache (s : Server) (t : GoType) (hwf : cacheWF s.formCache) :
    (s.getSchemaFields t).1 = fieldsOf t ∧
    cacheWF (s.getSchemaFields t).2.formCache ∧
    cacheGet (s.getSchemaFields t).2.formCache t = some (fieldsOf t) ∧
    (∀ fs, cacheGet s.formCache t = some fs → (s.getSchemaFields t).2 = s) ∧
    ((s.getSchemaFields t).2.getSchemaFields t).1 = (s.getSchemaFields t).1 ∧
    ((s.getSchemaFields t).2.getSchemaFields t).2 = (s.getSchemaFields t).2 := by
  refine ⟨getSchemaFields_fst hwf, getSchemaFields_wf hwf,
    getSchemaFields_cached hwf, fun fs h => getSchemaFields_hit h, ?_, ?_⟩
  · rw [getSchemaFields_fst (getSchemaFields_wf hwf), getSchemaFields_fst hwf]
  · exact getSchemaFields_hit (getSchemaFields_cached hwf)

/-- Witness for C8 on the fresh server and the test schema type. -/
theorem c8_schema_cache_witness :
    cacheWF Server.new.formCache ∧
    (Server.new.getSchemaFields testTy).1 = fieldsOf testTy ∧
    cacheGet (Server.new.getSchemaFields testTy).2.formCache testTy =
      some (fieldsOf testTy) :=
  ⟨fun e he => absurd he (List.not_mem_nil e),
    (c8_schema_cache Server.new testTy (fun e he => absurd he (List.not_mem_nil e))).1,
    (c8_schema_cache Server.new testTy
      (fun e he => absurd he (List.not_mem_nil e))).2.2.1⟩

/-- C9: `parseForm` consults only the schema argument's type: its result is
identical for any two schema values of the same type (mutation of the schema
is inexpressible in the pure model, and a successful decode yields a
fully-typed fresh instance of that same type). -/
theorem c9_parse_form_frame (s : Server) (r : Request) (t : GoType)
    (v1 v2 : Inst) :
    s.parseForm r ⟨t, v1⟩ = s.parseForm r ⟨t, v2⟩ ∧
    (cacheWF s.formCache → ∀ inst, (s.parseForm r ⟨t, v1⟩).1 = .ok inst →
      ValInst t inst = true) :=
  ⟨rfl, fun hwf _ h => parseForm_ok_valInst hwf h⟩

/-- Witness for C9: two different schema values of the test type decode the
same request identically, and the decoded instance is fully typed. -/
theorem c9_parse_form_frame_witness :
    Server.new.parseForm ⟨.POST, ["test"], [("name", "x")]⟩ ⟨testTy, [.vInt 7, .vString "seed"]⟩ =
      Server.new.parseForm ⟨.POST, ["test"], [("name", "x")]⟩ ⟨testTy, []⟩ ∧
    cacheWF Server.new.formCache ∧
    ValInst testTy [.vInt 0, .vString "x"] = true :=
  ⟨(c9_parse_form_frame Server.new ⟨.POST, ["test"], [("name", "x")]⟩ testTy
      [.vInt 7, .vString "seed"] []).1,
    fun e he => absurd he (List.not_mem_nil e),
    (c9_parse_form_frame Server.new ⟨.POST, ["test"], [("name", "x")]⟩ testTy
      [.vInt 7, .vString "seed"] []).2
      (fun e he => absurd he (List.not_mem_nil e)) [.vInt 0, .vString "x"] rfl⟩

/-- C6: on a schema whose fields all have supported kinds, the decoder is
total: it yields either a fully-typed instance of the schema type or the
parse error of the first failing field, and every numeric store (including
into narrow fields, which the model truncates as the reflect setters do)
stays within the field's width. -/
theorem c6_parse_form_total (s : Server) (r : Request) (schema : GoValue)
    (hwf : cacheWF s.formCache)
    (_hsupp : schema.ty.fields.all (fun sf => sf.kind.isSupported) = true) :
    (∀ inst, (s.parseForm r schema).1 = .ok inst → ValInst schema.ty inst = true) ∧
    (∀ e, (s.parseForm r schema).1 = .error e →
      firstFieldError r.form (fieldsOf schema.ty) = some e ∧ e.isParse = true) :=
  ⟨fun _ h => parseForm_ok_valInst hwf h,
    fun _ h => ⟨parseForm_error_first hwf h,
      firstFieldError_isParse (parseForm_error_first hwf h)⟩⟩

/-- Witness for C6: a narrow-width schema decodes an overflowing value by
truncation into range, and a malformed value is reported as the first field
error. -/
theorem c6_parse_form_total_witness :
    cacheWF Server.new.formCache ∧
    (⟨[⟨"N", "n", .kInt8⟩]⟩ : GoType).fields.all
      (fun sf => sf.kind.isSupported) = true ∧
    ValInst ⟨[⟨"N", "n", .kInt8⟩]⟩ [.vInt 44] = true ∧
    firstFieldError [("n", "abc")] (fieldsOf ⟨[⟨"N", "n", .kInt8⟩]⟩) =
      some (.parseError "ParseInt" "abc" "invalid syntax") :=
  ⟨fun e he => absurd he (List.not_mem_nil e), by decide,
    (c6_parse_form_total Server.new ⟨.POST, ["x"], [("n", "300")]⟩
      ⟨⟨[⟨"N", "n", .kInt8⟩]⟩, []⟩ (fun e he => absurd he (List.not_mem_nil e))
      (by decide)).1 [.vInt 44] rfl,
    ((c6_parse_form_total Server.new ⟨.POST, ["x"], [("n", "abc")]⟩
      ⟨⟨[⟨"N", "n", .kInt8⟩]⟩, []⟩ (fun e he => absurd he (List.not_mem_nil e))
      (by decide)).2 (.parseError "ParseInt" "abc" "invalid syntax") rfl).1⟩

/-- C3: on any write route, a form-decode failure answers a bare 500 through
the common error writer (never 400), invokes no handler method, and the
reported error is the first failing field's parse error in descriptor
order. -/
theorem c3_decode_failure_500 (s : Server) (r : Request)
    (ps : List (String × String)) (hwf : cacheWF s.formCache) :
    (∀ (schema : GoValue) (c : Inst → Except GoError JVal) (e : GoError),
      findRoute s.routes r.method r.path = some (.aCreate schema c, ps) →
      (s.parseForm r schema).1 = .error e →
      (s.serve r).2 = ⟨⟨500, ""⟩, [], ["Unhandled error: " ++ e.msg]⟩ ∧
        firstFieldError r.form (fieldsOf schema.ty) = some e ∧
        e.isParse = true) ∧
    (∀ (schema : GoValue) (g : String → Except GoError JVal)
      (u : JVal → Inst → Except GoError JVal) (e : GoError),
      findRoute s.routes r.method r.path = some (.aUpdate schema g u, ps) →
      (s.parseForm r schema).1 = .error e →
      (s.serve r).2 = ⟨⟨500, ""⟩, [], ["Unhandled error: " ++ e.msg]⟩ ∧
        firstFieldError r.form (fieldsOf schema.ty) = some e ∧
        e.isParse = true) := by
  constructor
  · intro schema c e hfind hp
    have hfirst := parseForm_error_first hwf hp
    have hne := isParse_ne_notFound (firstFieldError_isParse hfirst)
    rw [serve_eq_dispatch hfind, dispatch_create_err hp]
    exact ⟨by simp [writeError, hne], hfirst, firstFieldError_isParse hfirst⟩
  · intro schema g u e hfind hp
    have hfirst := parseForm_error_first hwf hp
    have hne := isParse_ne_notFound (firstFieldError_isParse hfirst)
    rw [serve_eq_dispatch hfind, dispatch_update_err hp]
    exact ⟨by simp [writeError, hne], hfirst, firstFieldError_isParse hfirst⟩

/-- Witness for C3: posting a malformed id to the create route of the test
server answers a bare 500 with no handler call. -/
theorem c3_decode_failure_500_witness :
    cacheWF testServer.formCache ∧
    findRoute testServer.routes .POST ["test"] =
      some (.aCreate testSchema tCreate, []) ∧
    (testServer.parseForm ⟨.POST, ["test"], [("id", "abc")]⟩ testSchema).1 =
      .error (.parseError "ParseInt" "abc" "invalid syntax") ∧
    (testServer.serve ⟨.POST, ["test"], [("id", "abc")]⟩).2 =
      ⟨⟨500, ""⟩, [],
        ["Unhandled error: " ++
          GoError.msg (.parseError "ParseInt" "abc" "invalid syntax")]⟩ :=
  ⟨fun e he => absurd he (List.not_mem_nil e), rfl, rfl,
    ((c3_decode_failure_500 testServer ⟨.POST, ["test"], [("id", "abc")]⟩ []
      (fun e he => absurd he (List.not_mem_nil e))).1 testSchema tCreate
      (.parseError "ParseInt" "abc" "invalid syntax") rfl rfl).1⟩

/-- Comma-joined concatenation of encoded elements, used to state the order
of a JSON array body explicitly. -/
def joinComma : List String → String
  | [] => ""
  | [x] => x
  | x :: y :: rest => x ++ "," ++ joinComma (y :: rest)

lemma encArr_eq_joinComma : ∀ xs : List JVal, encArr xs = joinComma (xs.map encJ) := by
  intro xs
  induction xs with
  | nil => rfl
  | cons x rest ih =>
    cases rest with
    | nil => rfl
    | cons y t =>
      simp only [encArr, List.map, joinComma] at ih ⊢
      rw [ih]

/-- A handler whose only capability is a list method that returns the nil
slice: an ordinary way for a Go handler to report an empty result. -/
def nilListHandler : ResourceHandler :=
  ⟨"empty", none, some (.ok .snil), none, none, none⟩

/-- Server with only the nil-slice list handler registered. -/
def nilListServer : Server := Server.new.add testSchema nilListHandler

/-- Counterexample to C7 as stated: a handler whose ListResource returns the
nil slice reports a list with zero elements, yet the successful list request
is answered with body null, not the two-character empty array. -/
theorem c7_list_order_cex :
    GoSlice.len .snil = 0 ∧
    (nilListServer.serve ⟨.GET, ["empty"], []⟩).2 =
      ⟨⟨200, "null"⟩, [.cList], []⟩ ∧
    "null" ≠ "[]" :=
  ⟨rfl, rfl, by decide⟩

/-- C7 (amended): a successful list request answers 200 with a JSON array
whose element order is the order of the slice returned by ListResource; an
allocated empty slice produces exactly the two-character body of an empty
array, while a nil slice (which also reports zero elements) encodes as
null. -/
theorem c7_list_order (s : Server) (r : Request) (ps : List (String × String))
    (l : Except GoError GoSlice)
    (hfind : findRoute s.routes r.method r.path = some (.aList l, ps)) :
    (∀ xs, l = .ok (.selems xs) → arrOK xs = true →
      (s.serve r).2 =
        ⟨⟨200, "[" ++ joinComma (xs.map encJ) ++ "]"⟩, [.cList], []⟩ ∧
      (xs = [] → "[" ++ joinComma (xs.map encJ) ++ "]" = "[]")) ∧
    (l = .ok .snil →
      (s.serve r).2 = ⟨⟨200, "null"⟩, [.cList], []⟩) := by
  constructor
  · intro xs hok henc
    constructor
    · rw [serve_eq_dispatch hfind]
      simp only [Server.dispatch, listRequest, hok, writeResourceList,
        jsonMarshalList, jsonMarshal, jvalOK, henc, if_true, encJ,
        encArr_eq_joinComma]
    · intro h
      subst h
      rfl
  · intro hok
    rw [serve_eq_dispatch hfind]
    simp only [Server.dispatch, listRequest, hok, writeResourceList,
      jsonMarshalList]

/-- Witness for C7 on the test server (ordered allocated slice, empty-slice
body) and on the nil-slice handler. -/
theorem c7_list_order_witness :
    findRoute testServer.routes .GET ["test"] = some (.aList tList, []) ∧
    tList = .ok (.selems [res1, res2]) ∧
    arrOK [res1, res2] = true ∧
    (testServer.serve ⟨.GET, ["test"], []⟩).2 =
      ⟨⟨200, "[" ++ joinComma ([res1, res2].map encJ) ++ "]"⟩, [.cList], []⟩ ∧
    "[" ++ joinComma (([] : List JVal).map encJ) ++ "]" = "[]" ∧
    findRoute nilListServer.routes .GET ["empty"] =
      some (.aList (.ok .snil), []) ∧
    (nilListServer.serve ⟨.GET, ["empty"], []⟩).2 =
      ⟨⟨200, "null"⟩, [.cList], []⟩ :=
  ⟨rfl, rfl, rfl,
    ((c7_list_order testServer ⟨.GET, ["test"], []⟩ [] tList rfl).1
      [res1, res2] rfl rfl).1,
    rfl, rfl,
    (c7_list_order nilListServer ⟨.GET, ["empty"], []⟩ [] (.ok .snil) rfl).2 rfl⟩

/-- C4: on the update and delete routes the existing resource is fetched
first; a not-found fetch answers a bare 404 with only the fetch recorded
(the update or delete method is never invoked), while a fully successful
update answers 200 with the merged resource's JSON and a successful delete
answers a bare 200. -/
theorem c4_update_delete_fetch_first (s : Server) (r : Request)
    (ps : List (String × String)) :
    (∀ (schema : GoValue) (g : String → Except GoError JVal)
      (u : JVal → Inst → Except GoError JVal) (data : Inst),
      findRoute s.routes r.method r.path = some (.aUpdate schema g u, ps) →
      (s.parseForm r schema).1 = .ok data →
      (g (byName ps "id") = .error .errNotFound →
        (s.serve r).2 = ⟨⟨404, ""⟩, [.cGet (byName ps "id")], []⟩) ∧
      (∀ res out b, g (byName ps "id") = .ok res → u res data = .ok out →
        jsonMarshal out = .ok b →
        (s.serve r).2 =
          ⟨⟨200, b⟩, [.cGet (byName ps "id"), .cUpdate res data], []⟩)) ∧
    (∀ (g : String → Except GoError JVal) (d : JVal → Option GoError),
      findRoute s.routes r.method r.path = some (.aDelete g d, ps) →
      (g (byName ps "id") = .error .errNotFound →
        (s.serve r).2 = ⟨⟨404, ""⟩, [.cGet (byName ps "id")], []⟩) ∧
      (∀ res, g (byName ps "id") = .ok res → d res = none →
        (s.serve r).2 =
          ⟨⟨200, ""⟩, [.cGet (byName ps "id"), .cDelete res], []⟩)) := by
  constructor
  · intro schema g u data hfind hp
    constructor
    · intro hget
      rw [serve_eq_dispatch hfind, dispatch_update_ok hp]
      simp [updateRequest, hget, writeError]
    · intro res out b hget hupd hmarsh
      rw [serve_eq_dispatch hfind, dispatch_update_ok hp]
      simp [updateRequest, hget, hupd, writeResource, hmarsh]
  · intro g d hfind
    constructor
    · intro hget
      rw [serve_eq_dispatch hfind]
      simp [Server.dispatch, deleteRequest, hget, writeError]
    · intro res hget hdel
      rw [serve_eq_dispatch hfind]
      simp [Server.dispatch, deleteRequest, hget, hdel]

/-- Witness for C4 on the test server: updating and deleting the unknown id
answers 404 without invoking the update or delete method, and deleting a
known id answers a bare 200. -/
theorem c4_update_delete_fetch_first_witness :
    findRoute testServer.routes .POST ["test", "3"] =
      some (.aUpdate testSchema tGet tUpdate, [("id", "3")]) ∧
    (testServer.parseForm ⟨.POST, ["test", "3"], [("name", "Updated Test")]⟩
      testSchema).1 = .ok [.vInt 0, .vString "Updated Test"] ∧
    tGet (byName [("id", "3")] "id") = .error .errNotFound ∧
    (testServer.serve ⟨.POST, ["test", "3"], [("name", "Updated Test")]⟩).2 =
      ⟨⟨404, ""⟩, [.cGet (byName [("id", "3")] "id")], []⟩ ∧
    (testServer.serve ⟨.DELETE, ["test", "1"], []⟩).2 =
      ⟨⟨200, ""⟩, [.cGet (byName [("id", "1")] "id"), .cDelete res1], []⟩ :=
  ⟨rfl, rfl, rfl,
    ((c4_update_delete_fetch_first testServer
      ⟨.POST, ["test", "3"], [("name", "Updated Test")]⟩ [("id", "3")]).1
      testSchema tGet tUpdate [.vInt 0, .vString "Updated Test"] rfl rfl).1 rfl,
    ((c4_update_delete_fetch_first testServer
      ⟨.DELETE, ["test", "1"], []⟩ [("id", "1")]).2 tGet tDelete rfl).2
      res1 rfl rfl⟩

/-- C1: registration wires routes exactly per the handler's satisfied
capabilities: fetch-one yields GET on the id pattern, list yields GET on the
collection pattern, create yields POST and PUT on the collection pattern
bound to the same dispatch closure, update yields POST on the id pattern and
delete yields DELETE on the id pattern (both requiring the embedded
fetch-one); a handler with no satisfied capability registers nothing and
every request to the resulting server is answered by the catch-all 404. -/
theorem c1_route_registration (schema : GoValue) (h : ResourceHandler) :
    ((Server.new.add schema h).routes.length =
      (if h.getResource.isSome then 1 else 0) +
      (if h.listResource.isSome then 1 else 0) +
      (if h.createResource.isSome then 2 else 0) +
      (if h.getResource.isSome ∧ h.updateResource.isSome then 1 else 0) +
      (if h.getResource.isSome ∧ h.deleteResource.isSome then 1 else 0)) ∧
    (∀ g, h.getResource = some g →
      (⟨.GET, mkPattern ("/" ++ h.path ++ "/:id"), .aGet g⟩ : RouteEntry) ∈
        (Server.new.add schema h).routes) ∧
    (∀ l, h.listResource = some l →
      (⟨.GET, mkPattern ("/" ++ h.path), .aList l⟩ : RouteEntry) ∈
        (Server.new.add schema h).routes) ∧
    (∀ c, h.createResource = some c →
      (⟨.POST, mkPattern ("/" ++ h.path), .aCreate schema c⟩ : RouteEntry) ∈
        (Server.new.add schema h).routes ∧
      (⟨.PUT, mkPattern ("/" ++ h.path), .aCreate schema c⟩ : RouteEntry) ∈
        (Server.new.add schema h).routes) ∧
    (∀ g u, h.getResource = some g → h.updateResource = some u →
      (⟨.POST, mkPattern ("/" ++ h.path ++ "/:id"),
          .aUpdate schema g u⟩ : RouteEntry) ∈
        (Server.new.add schema h).routes) ∧
    (∀ g d, h.getResource = some g → h.deleteResource = some d →
      (⟨.DELETE, mkPattern ("/" ++ h.path ++ "/:id"),
          .aDelete g d⟩ : RouteEntry) ∈
        (Server.new.add schema h).routes) ∧
    (h.getResource = none → h.listResource = none → h.createResource = none →
      (Server.new.add schema h).routes = [] ∧
      ∀ r : Request, (Server.new.add schema h).serve r =
        (Server.new.add schema h, ⟨⟨404, ""⟩, [], []⟩)) := by
  refine ⟨?_, ?_, ?_, ?_, ?_, ?_, ?_⟩
  · cases hg : h.getResource <;> cases hl : h.listResource <;>
      cases hc : h.createResource <;> cases hu : h.updateResource <;>
      cases hd : h.deleteResource <;>
      simp [Server.add, Server.new, hg, hl, hc, hu, hd]
  · intro g hg
    cases hl : h.listResource <;> cases hc : h.createResource <;>
      cases hu : h.updateResource <;> cases hd : h.deleteResource <;>
      simp [Server.add, Server.new, hg, hl, hc, hu, hd]
  · intro l hl
    cases hg : h.getResource <;> cases hc : h.createResource <;>
      cases hu : h.updateResource <;> cases hd : h.deleteResource <;>
      simp [Server.add, Server.new, hg, hl, hc, hu, hd]
  · intro c hc
    cases hg : h.getResource <;> cases hl : h.listResource <;>
      cases hu : h.updateResource <;> cases hd : h.deleteResource <;>
      simp [Server.add, Server.new, hg, hl, hc, hu, hd]
  · intro g u hg hu
    cases hl : h.listResource <;> cases hc : h.createResource <;>
      cases hd : h.deleteResource <;>
      simp [Server.add, Server.new, hg, hl, hc, hu, hd]
  · intro g d hg hd
    cases hl : h.listResource <;> cases hc : h.createResource <;>
      cases hu : h.updateResource <;>
      simp [Server.add, Server.new, hg, hl, hc, hu, hd]
  · intro h1 h2 h3
    have hr : (Server.new.add schema h).routes = [] := by
      simp [Server.add, Server.new, h1, h2, h3]
    refine ⟨hr, fun r => ?_⟩
    have hfind : findRoute (Server.new.add schema h).routes r.method r.path = none := by
      rw [hr]; rfl
    exact serve_not_found hfind

/-- Witness for C1: the full test handler registers its fetch-one route, and
the capability-free handler registers nothing and is served by the
catch-all. -/
theorem c1_route_registration_witness :
    tHandler.getResource = some tGet ∧
    (⟨.GET, mkPattern ("/" ++ tHandler.path ++ "/:id"),
        .aGet tGet⟩ : RouteEntry) ∈ (Server.new.add testSchema tHandler).routes ∧
    (Server.new.add testSchema noHandler).routes = [] ∧
    (Server.new.add testSchema noHandler).serve ⟨.GET, ["no", "1"], []⟩ =
      (Server.new.add testSchema noHandler, ⟨⟨404, ""⟩, [], []⟩) :=
  ⟨rfl, (c1_route_registration testSchema tHandler).2.1 tGet rfl,
    ((c1_route_registration testSchema noHandler).2.2.2.2.2.2 rfl rfl rfl).1,
    ((c1_route_registration testSchema noHandler).2.2.2.2.2.2 rfl rfl rfl).2
      ⟨.GET, ["no", "1"], []⟩⟩
